import Mathlib

/-!
Shallow embedding of `src/objects.js` of the faunadb-js driver: the special
value types `Ref`, `SetRef`, `Page`, `FaunaTime` and `FaunaDate`, together
with the pieces of the JavaScript runtime they rely on (single-character
string split, array join, `Date.prototype.toISOString`).

JavaScript strings are modelled as `List Char`; all operations are pure, so
the immutability of the JS value types (they are never mutated after
construction) holds by construction in this embedding.  Fallible operations
(`Ref.id`, the `FaunaTime` constructor) return `Except JSError _`, where
`JSError.invalidValue` models the `InvalidValue` error class imported from
`errors.js`.
-/

deriving instance DecidableEq for Except

/-- The `InvalidValue` error class imported from `errors.js` (thrown by
`Ref#id` and the `FaunaTime` constructor); it carries its message. -/
inductive JSError where
  | invalidValue (msg : List Char)
deriving DecidableEq

/-- Models `String.prototype.split(sep)` for a one-character separator, the
only form used by `objects.js` (`this.value.split('/')`).  JS semantics:
`''.split('/') == ['']`, `'a/'.split('/') == ['a','']`, and the result is
never the empty array. -/
def splitChar (sep : Char) : List Char → List (List Char)
  | [] => [[]]
  | c :: cs =>
    if c = sep then
      [] :: splitChar sep cs
    else
      match splitChar sep cs with
      | [] => [[c]]
      | r :: rs => (c :: r) :: rs

/-- Models `Array.prototype.join(sep)` on an array of strings: the elements
interleaved with the separator; the empty array joins to the empty string. -/
def joinSep (sep : List Char) : List (List Char) → List Char
  | [] => []
  | [x] => x
  | x :: y :: xs => x ++ sep ++ joinSep sep (y :: xs)

/-- Models `String.prototype.endsWith(pat)`: `pat` is a suffix of `s`. -/
def jsEndsWith (s pat : List Char) : Bool :=
  List.isSuffixOf pat s

/-- Models a valid (non-NaN) JavaScript `Date`: its time value, in
milliseconds since the Unix epoch (`Date.prototype.getTime`). -/
structure JSDate where
  ms : Int
deriving DecidableEq

/-- The character for a single decimal digit (`n` is taken mod 10). -/
def digitChar (n : Nat) : Char :=
  Char.ofNat (48 + n % 10)

/-- Decimal rendering of `n` zero-padded to exactly `k` digits (the field
widths used by `Date.prototype.toISOString`; every field it prints fits its
width). -/
def padN (k : Nat) (n : Nat) : List Char :=
  match k with
  | 0 => []
  | k + 1 => padN k (n / 10) ++ [digitChar n]

/-- Civil (proleptic Gregorian) calendar date from a count of days since
1970-01-01, as used by the ECMAScript `Date` specification: returns
`(year, month, day)` with `month` in 1..12 and `day` in 1..31. -/
def civilFromDays (z : Int) : Int × Nat × Nat :=
  let zs := z + 719468
  let era := zs.fdiv 146097
  let doe := (zs - era * 146097).toNat
  let yoe := (doe - doe / 1460 + doe / 36524 - doe / 146096) / 365
  let y := (yoe : Int) + era * 400
  let doy := doe - (365 * yoe + yoe / 4 - yoe / 100)
  let mp := (5 * doy + 2) / 153
  let d := doy - (153 * mp + 2) / 5 + 1
  let m := if mp < 10 then mp + 3 else mp - 9
  (if m ≤ 2 then y + 1 else y, m, d)

/-- The year field of `toISOString`: four zero-padded digits for years
0..9999, otherwise the ECMAScript expanded form, a sign and six digits. -/
def padYear (y : Int) : List Char :=
  if 0 ≤ y ∧ y < 10000 then padN 4 y.toNat
  else if y < 0 then '-' :: padN 6 (-y).toNat
  else '+' :: padN 6 y.toNat

/-- Models `Date.prototype.toISOString`: the full-precision ISO-8601 UTC
string `YYYY-MM-DDTHH:mm:ss.sssZ` of the date's time value. -/
def JSDate.toISOString (dt : JSDate) : List Char :=
  let days := dt.ms.fdiv 86400000
  let msod := (dt.ms.fmod 86400000).toNat
  let c := civilFromDays days
  padYear c.1 ++
    '-' :: padN 2 c.2.1 ++
    '-' :: padN 2 c.2.2 ++
    'T' :: padN 2 (msod / 3600000) ++
    ':' :: padN 2 (msod / 60000 % 60) ++
    ':' :: padN 2 (msod / 1000 % 60) ++
    '.' :: padN 3 (msod % 1000) ++
    ['Z']

/-- FaunaDB ref: a simple wrapper around a string (`this.value`). -/
structure Ref where
  value : List Char
deriving DecidableEq

/-- Models `Ref#toString`, which returns `this.value` (this is the string
form `Array.prototype.join` uses when a `Ref` is passed as a segment). -/
def Ref.toString (r : Ref) : List Char :=
  r.value

/-- One argument of the `Ref` constructor: a string, or another `Ref`
(whose string form is taken when joining). -/
inductive RefSegment where
  | str (s : List Char)
  | ref (r : Ref)
deriving DecidableEq

/-- The string form `Array.prototype.join` takes of one constructor
argument: a string is itself, a `Ref` converts via `Ref#toString`. -/
def segString : RefSegment → List Char
  | .str s => s
  | .ref r => r.toString

/-- Models the `Ref` constructor: `this.value = parts.join('/')` where
`parts` is the argument list. -/
def Ref.construct (parts : List RefSegment) : Ref :=
  ⟨joinSep "/".toList (parts.map segString)⟩

/-- Models the `Ref#class` getter (named `cls` here because `class` is a
Lean keyword): split `value` on `'/'`; with a single part, return `this`;
otherwise a new `Ref` of all parts but the last, rejoined. -/
def Ref.cls (r : Ref) : Ref :=
  let parts := splitChar '/' r.value
  if parts.length = 1 then r
  else Ref.construct [.str (joinSep "/".toList parts.dropLast)]

/-- Models the `Ref#id` getter: split `value` on `'/'`; with a single part,
throw `InvalidValue('The Ref does not have an id.')`; otherwise return the
last part. -/
def Ref.id (r : Ref) : Except JSError (List Char) :=
  let parts := splitChar '/' r.value
  if parts.length = 1 then
    .error (.invalidValue "The Ref does not have an id.".toList)
  else
    .ok (parts.getLastD [])

/-- Models `Ref#toJSON`: the single-key tagged object `{'@ref': value}`,
rendered as its key/value pair list. -/
def Ref.toJSON (r : Ref) : List (List Char × List Char) :=
  [("@ref".toList, r.value)]

/-- FaunaDB set: wraps a raw query object, opaque to this layer (the
constructor stores it unmodified). -/
structure SetRef (Q : Type) where
  query : Q
deriving DecidableEq

/-- Models `SetRef#toJSON`: the single-key tagged object `{'@set': query}`. -/
def SetRef.toJSON {Q : Type} (s : SetRef Q) : List (List Char × Q) :=
  [("@set".toList, s.query)]

/-- The argument of the `FaunaTime` and `FaunaDate` constructors: a string
or a native `Date`. -/
inductive StrOrDate where
  | str (s : List Char)
  | date (d : JSDate)
deriving DecidableEq

/-- FaunaDB time: wraps an ISO8601 time string. -/
structure FaunaTime where
  value : List Char
deriving DecidableEq

/-- Models the `FaunaTime` constructor: a `Date` is converted with
`toISOString`; a string not ending in `'Z'` throws
`InvalidValue("Only allowed timezone is 'Z', got: " + value)`; any other
string is stored as-is. -/
def FaunaTime.construct : StrOrDate → Except JSError FaunaTime
  | .date d => .ok ⟨d.toISOString⟩
  | .str s =>
    if jsEndsWith s "Z".toList then .ok ⟨s⟩
    else .error (.invalidValue ("Only allowed timezone is \x27Z\x27, got: ".toList ++ s))

/-- Models `FaunaTime#toJSON`: the single-key tagged object `{'@ts': value}`. -/
def FaunaTime.toJSON (t : FaunaTime) : List (List Char × List Char) :=
  [("@ts".toList, t.value)]

/-- FaunaDB date: wraps an ISO8601 date string. -/
structure FaunaDate where
  value : List Char
deriving DecidableEq

/-- Models the `FaunaDate` constructor: a `Date` is converted with
`toISOString` and sliced to its first 10 characters (the `YYYY-MM-DD` date
portion); a string is stored unmodified, with no validation and no failure
(the constructor is total). -/
def FaunaDate.construct : StrOrDate → FaunaDate
  | .date d => ⟨d.toISOString.take 10⟩
  | .str s => ⟨s⟩

/-- Models `FaunaDate#toJSON`: the single-key tagged object `{'@date': value}`. -/
def FaunaDate.toJSON (d : FaunaDate) : List (List Char × List Char) :=
  [("@date".toList, d.value)]

/-- The JavaScript values a `Ref` may be compared against with
`Ref#equals`: refs, plain strings, the other wrapper types of `objects.js`,
numbers, and `null`.  Only the `ref` variant passes `instanceof Ref`. -/
inductive JSValue where
  | ref (r : Ref)
  | str (s : List Char)
  | time (t : FaunaTime)
  | date (d : FaunaDate)
  | num (n : Int)
  | null
deriving DecidableEq

/-- Models `Ref#equals(other)`:
`other instanceof Ref && this.value === other.value`. -/
def Ref.equals (r : Ref) (other : JSValue) : Bool :=
  match other with
  | .ref r2 => r.value == r2.value
  | _ => false

/-- A single pagination result: `data` plus the optional `before`/`after`
cursors (which may be any JS value, or absent). -/
structure Page (α : Type) where
  data : List α
  before : Option JSValue
  after : Option JSValue

/-- Models `Page#mapData(func)`: a new `Page` whose `data` has had `func`
applied to each element, with `before` and `after` passed through; the
original page is untouched (the embedding is pure). -/
def Page.mapData {α β : Type} (p : Page α) (func : α → β) : Page β :=
  ⟨p.data.map func, p.before, p.after⟩

/-! Helper lemmas about the split/join model. -/

/-- The separator string used throughout `objects.js`, as a char list. -/
theorem slash_toList : "/".toList = ['/'] := rfl

/-- The UTC designator checked by the `FaunaTime` constructor, as a char
list. -/
theorem slash_Z_toList : "Z".toList = ['Z'] := rfl

/-- `split` never returns the empty array (JS: `''.split('/') == ['']`). -/
theorem splitChar_ne_nil (sep : Char) (l : List Char) : splitChar sep l ≠ [] := by
  cases l with
  | nil => simp [splitChar]
  | cons c cs =>
    simp only [splitChar]
    split
    · simp
    · split <;> simp

/-- Joining the parts of a split restores the original string. -/
theorem joinSep_splitChar (sep : Char) (l : List Char) :
    joinSep [sep] (splitChar sep l) = l := by
  induction l with
  | nil => rfl
  | cons c cs ih =>
    obtain ⟨r, rs, hr⟩ : ∃ r rs, splitChar sep cs = r :: rs := by
      cases hsp : splitChar sep cs with
      | nil => exact absurd hsp (splitChar_ne_nil sep cs)
      | cons r rs => exact ⟨r, rs, rfl⟩
    rw [hr] at ih
    by_cases h : c = sep
    · subst h
      simp only [splitChar, if_pos rfl, hr]
      simpa [joinSep] using ih
    · simp only [splitChar, if_neg h, hr]
      cases rs with
      | nil =>
        simp only [joinSep] at ih ⊢
        rw [ih]
      | cons s ss =>
        simp only [joinSep, List.cons_append, List.append_assoc] at ih ⊢
        rw [ih]

/-- Join of a one-longer array: the join of the front, the separator, then
the last element. -/
theorem joinSep_append_single (sep x : List Char) (xs : List (List Char)) (h : xs ≠ []) :
    joinSep sep (xs ++ [x]) = joinSep sep xs ++ sep ++ x := by
  induction xs with
  | nil => exact absurd rfl h
  | cons a as ih =>
    cases as with
    | nil => simp [joinSep]
    | cons b bs =>
      have hb := ih (by simp)
      simp only [List.cons_append, List.append_eq, joinSep] at hb ⊢
      rw [hb]
      simp [List.append_assoc]

/-- A join whose first part is non-empty is non-empty. -/
theorem joinSep_ne_nil (sep x : List Char) (xs : List (List Char)) (hx : x ≠ []) :
    joinSep sep (x :: xs) ≠ [] := by
  cases xs with
  | nil => simpa [joinSep] using hx
  | cons y ys => simp [joinSep, List.append_eq_nil, hx]

/-- The first character of a join is the first character of its first part,
provided that part is non-empty. -/
theorem joinSep_head (sep x : List Char) (xs : List (List Char)) (hx : x ≠ []) :
    (joinSep sep (x :: xs)).head? = x.head? := by
  cases xs with
  | nil => rfl
  | cons y ys =>
    cases x with
    | nil => exact absurd rfl hx
    | cons c cs => simp [joinSep, List.head?_append]

/-- The last character of a join is the last character of its last part,
provided all parts are non-empty. -/
theorem joinSep_getLast (sep : List Char) (parts : List (List Char))
    (h : ∀ p ∈ parts, p ≠ []) (hp : parts ≠ []) :
    (joinSep sep parts).getLast? = (parts.getLastD []).getLast? := by
  induction parts with
  | nil => exact absurd rfl hp
  | cons x xs ih =>
    cases xs with
    | nil => rfl
    | cons y ys =>
      have hy : y ≠ [] := h y (by simp)
      have hjoin : joinSep sep (y :: ys) ≠ [] := joinSep_ne_nil sep y ys hy
      have ihy := ih (fun p hp2 => h p (by simp [hp2])) (by simp)
      obtain ⟨a, ha⟩ := Option.isSome_iff_exists.mp (List.getLast?_isSome.mpr hjoin)
      simp only [joinSep, List.append_assoc, List.getLast?_append, ha, Option.or_some,
        List.getLastD_cons] at ihy ⊢
      exact ihy

/-! The claims. -/

/-- C1 (amended): for every `Ref` built by the constructor from segment
inputs whose string forms are non-empty and themselves free of leading and
trailing slashes, the stored `value` contains no leading and no trailing
slash.  (Construction itself never introduces a boundary slash; a slash
already at the boundary of a segment input is stored as given.) -/
theorem c1_construct_no_outer_slash (segs : List RefSegment)
    (h : ∀ seg ∈ segs, segString seg ≠ [] ∧
      (segString seg).head? ≠ some '/' ∧ (segString seg).getLast? ≠ some '/') :
    (Ref.construct segs).value.head? ≠ some '/' ∧
    (Ref.construct segs).value.getLast? ≠ some '/' := by
  have hmem : ∀ p ∈ segs.map segString, p ≠ [] ∧ p.head? ≠ some '/' ∧
      p.getLast? ≠ some '/' := by
    intro p hp
    obtain ⟨seg, hseg, rfl⟩ := List.mem_map.mp hp
    exact h seg hseg
  show (joinSep "/".toList (segs.map segString)).head? ≠ some '/' ∧
    (joinSep "/".toList (segs.map segString)).getLast? ≠ some '/'
  cases hs : segs.map segString with
  | nil => simp [joinSep]
  | cons x xs =>
    rw [hs] at hmem
    have hx := hmem x (by simp)
    have hne : (x :: xs : List (List Char)) ≠ [] := by simp
    constructor
    · rw [joinSep_head _ x xs hx.1]
      exact hx.2.1
    · rw [joinSep_getLast _ (x :: xs) (fun p hp => (hmem p hp).1) hne]
      have hlast : (x :: xs).getLastD [] = (x :: xs).getLast hne := by
        rw [List.getLastD_eq_getLast?, List.getLast?_eq_getLast _ hne]
        rfl
      rw [hlast]
      exact (hmem _ (List.getLast_mem hne)).2.2

/-- C1 witness: the constructor arguments `'databases'`, `'prydain'`
satisfy the hypothesis and yield a value with no boundary slash. -/
theorem c1_construct_no_outer_slash_witness :
    (∀ seg ∈ [RefSegment.str "databases".toList, RefSegment.str "prydain".toList],
      segString seg ≠ [] ∧ (segString seg).head? ≠ some '/' ∧
      (segString seg).getLast? ≠ some '/') ∧
    ((Ref.construct [RefSegment.str "databases".toList,
        RefSegment.str "prydain".toList]).value.head? ≠ some '/' ∧
      (Ref.construct [RefSegment.str "databases".toList,
        RefSegment.str "prydain".toList]).value.getLast? ≠ some '/') :=
  ⟨by decide, c1_construct_no_outer_slash _ (by decide)⟩

/-- C1 counterexample: the claim as stated fails — constructing from the
single segment input `'/a/'` stores the value `'/a/'`, which has both a
leading and a trailing slash. -/
theorem c1_counterexample :
    (Ref.construct [RefSegment.str "/a/".toList]).value.head? = some '/' ∧
    (Ref.construct [RefSegment.str "/a/".toList]).value.getLast? = some '/' := by
  decide

/-- C2: for a `Ref` whose value splits on `'/'` into one part, `class`
returns the reference itself; with two or more parts it returns a reference
whose value is all parts but the last rejoined, i.e. the original value
with the trailing `'/' ++ last part` removed. -/
theorem c2_cls_drops_last_segment (r : Ref) :
    ((splitChar '/' r.value).length = 1 → r.cls = r) ∧
    (2 ≤ (splitChar '/' r.value).length →
      r.cls.value = joinSep "/".toList (splitChar '/' r.value).dropLast ∧
      r.value = r.cls.value ++ '/' :: (splitChar '/' r.value).getLastD []) := by
  constructor
  · intro h
    simp [Ref.cls, h]
  · intro h
    have hne1 : ¬ (splitChar '/' r.value).length = 1 := by omega
    have hcls : r.cls.value = joinSep "/".toList (splitChar '/' r.value).dropLast := by
      simp [Ref.cls, hne1, Ref.construct, segString, joinSep]
    refine ⟨hcls, ?_⟩
    have hne0 : splitChar '/' r.value ≠ [] := splitChar_ne_nil '/' r.value
    have hdl : (splitChar '/' r.value).dropLast ≠ [] := by
      apply List.ne_nil_of_length_pos
      rw [List.length_dropLast]
      omega
    have hlastd : (splitChar '/' r.value).getLastD [] =
        (splitChar '/' r.value).getLast hne0 := by
      rw [List.getLastD_eq_getLast?, List.getLast?_eq_getLast _ hne0]
      rfl
    rw [hcls, slash_toList, hlastd]
    calc r.value
        = joinSep ['/'] (splitChar '/' r.value) := (joinSep_splitChar '/' r.value).symm
      _ = joinSep ['/'] ((splitChar '/' r.value).dropLast ++
            [(splitChar '/' r.value).getLast hne0]) := by
          rw [List.dropLast_append_getLast hne0]
      _ = joinSep ['/'] (splitChar '/' r.value).dropLast ++ ['/'] ++
            (splitChar '/' r.value).getLast hne0 :=
          joinSep_append_single ['/'] _ _ hdl
      _ = joinSep ['/'] (splitChar '/' r.value).dropLast ++
            '/' :: (splitChar '/' r.value).getLast hne0 := by
          simp

/-- C2 witness: `'databases'` is its own class; the class of
`'databases/prydain'` is `'databases'` and the removed segment is
`'prydain'`. -/
theorem c2_cls_drops_last_segment_witness :
    ((splitChar '/' "databases".toList).length = 1 ∧
      Ref.cls ⟨"databases".toList⟩ = ⟨"databases".toList⟩) ∧
    (2 ≤ (splitChar '/' "databases/prydain".toList).length ∧
      ((Ref.cls ⟨"databases/prydain".toList⟩).value =
          joinSep "/".toList (splitChar '/' "databases/prydain".toList).dropLast ∧
        "databases/prydain".toList = (Ref.cls ⟨"databases/prydain".toList⟩).value ++
          '/' :: (splitChar '/' "databases/prydain".toList).getLastD [])) :=
  ⟨⟨by decide, (c2_cls_drops_last_segment ⟨"databases".toList⟩).1 (by decide)⟩,
   ⟨by decide, (c2_cls_drops_last_segment ⟨"databases/prydain".toList⟩).2 (by decide)⟩⟩

/-- C3: `id` fails with `InvalidValue` exactly when the value splits on
`'/'` into a single part, and otherwise returns the last part; being a pure
function of the reference, it leaves the reference unchanged in either
case. -/
theorem c3_id_last_segment (r : Ref) :
    ((splitChar '/' r.value).length = 1 →
      r.id = .error (.invalidValue "The Ref does not have an id.".toList)) ∧
    ((splitChar '/' r.value).length ≠ 1 →
      r.id = .ok ((splitChar '/' r.value).getLastD [])) := by
  constructor <;> intro h <;> simp [Ref.id, h]

/-- C3 witness: `'databases'` has no id and fails; the id of
`'databases/prydain'` is `'prydain'`. -/
theorem c3_id_last_segment_witness :
    Ref.id ⟨"databases".toList⟩ =
      .error (.invalidValue "The Ref does not have an id.".toList) ∧
    Ref.id ⟨"databases/prydain".toList⟩ = .ok "prydain".toList := by
  refine ⟨(c3_id_last_segment ⟨"databases".toList⟩).1 (by decide), ?_⟩
  rw [(c3_id_last_segment ⟨"databases/prydain".toList⟩).2 (by decide)]
  decide

/-- C4: constructing a `FaunaTime` from a string fails with `InvalidValue`
exactly when the string does not end with `'Z'`; a `'Z'`-terminated string
is stored as-is, and a native `Date` is converted to its full-precision
ISO-8601 UTC string and never fails. -/
theorem c4_time_construct_utc_only (s : List Char) (d : JSDate) :
    (jsEndsWith s "Z".toList = false →
      FaunaTime.construct (.str s) = .error (.invalidValue
        ("Only allowed timezone is \x27Z\x27, got: ".toList ++ s))) ∧
    (jsEndsWith s "Z".toList = true → FaunaTime.construct (.str s) = .ok ⟨s⟩) ∧
    FaunaTime.construct (.date d) = .ok ⟨d.toISOString⟩ := by
  refine ⟨fun h => ?_, fun h => ?_, rfl⟩ <;>
    rw [slash_Z_toList] at h <;> simp [FaunaTime.construct, h]

/-- C4 witness: the spec's examples — `'2023-01-01T00:00:00.000Z'` is
stored as-is, `'2023-01-01T00:00:00.000+01:00'` fails with `InvalidValue`. -/
theorem c4_time_construct_utc_only_witness :
    FaunaTime.construct (.str "2023-01-01T00:00:00.000Z".toList) =
      .ok ⟨"2023-01-01T00:00:00.000Z".toList⟩ ∧
    FaunaTime.construct (.str "2023-01-01T00:00:00.000+01:00".toList) =
      .error (.invalidValue ("Only allowed timezone is \x27Z\x27, got: ".toList ++
        "2023-01-01T00:00:00.000+01:00".toList)) :=
  ⟨(c4_time_construct_utc_only "2023-01-01T00:00:00.000Z".toList ⟨0⟩).2.1 (by decide),
   (c4_time_construct_utc_only "2023-01-01T00:00:00.000+01:00".toList ⟨0⟩).1 (by decide)⟩

/-- C5: `mapData` produces a page whose data at every index is `func` of
the original data at that index (in particular the length is unchanged),
and whose `before` and `after` cursors are the original's; the original
page is left unmodified (every operation of this embedding is pure, so
`p` itself cannot change). -/
theorem c5_mapData_pointwise {α β : Type} (p : Page α) (func : α → β) :
    (p.mapData func).before = p.before ∧
    (p.mapData func).after = p.after ∧
    (p.mapData func).data.length = p.data.length ∧
    ∀ i : Nat, (p.mapData func).data[i]? = Option.map func p.data[i]? := by
  refine ⟨rfl, rfl, by simp [Page.mapData], fun i => ?_⟩
  simp [Page.mapData]

/-- C6: `equals` is true exactly when the other operand is a `Ref` with the
identical value string; it is reflexive, symmetric, and false against every
non-ref operand — including a plain string with matching content. -/
theorem c6_equals_value_equality (r r2 : Ref) (v : JSValue) :
    (r.equals v = true ↔ ∃ x, v = JSValue.ref x ∧ r.value = x.value) ∧
    r.equals (.ref r) = true ∧
    r.equals (.ref r2) = r2.equals (.ref r) ∧
    ((∀ x, v ≠ JSValue.ref x) → r.equals v = false) ∧
    r.equals (.str r.value) = false := by
  refine ⟨?_, ?_, ?_, ?_, rfl⟩
  · cases v <;> simp [Ref.equals]
  · simp [Ref.equals]
  · by_cases h : r.value = r2.value
    · simp [Ref.equals, h]
    · have h2 : ¬ r2.value = r.value := fun hh => h hh.symm
      simp [Ref.equals, h, h2]
  · intro h
    cases v with
    | ref x => exact absurd rfl (h x)
    | str s => rfl
    | time t => rfl
    | date d => rfl
    | num n => rfl
    | null => rfl

/-- C6 witness: a ref is never equal to a plain string, a time value, or a
number, even with matching content. -/
theorem c6_equals_value_equality_witness :
    Ref.equals ⟨"classes/x".toList⟩ (JSValue.str "classes/x".toList) = false ∧
    Ref.equals ⟨"classes/x".toList⟩ (JSValue.time ⟨"classes/x".toList⟩) = false ∧
    Ref.equals ⟨"classes/x".toList⟩ (JSValue.num 0) = false :=
  ⟨(c6_equals_value_equality ⟨"classes/x".toList⟩ ⟨"classes/x".toList⟩
      (JSValue.str "classes/x".toList)).2.2.2.1 (fun _ h => JSValue.noConfusion h),
   (c6_equals_value_equality ⟨"classes/x".toList⟩ ⟨"classes/x".toList⟩
      (JSValue.time ⟨"classes/x".toList⟩)).2.2.2.1 (fun _ h => JSValue.noConfusion h),
   (c6_equals_value_equality ⟨"classes/x".toList⟩ ⟨"classes/x".toList⟩
      (JSValue.num 0)).2.2.2.1 (fun _ h => JSValue.noConfusion h)⟩

/-- C7: constructing from a list of (non-empty) string segments stores the
segments joined with `'/'`; a `Ref` passed as a segment contributes exactly
its own string form (its `value`). -/
theorem c7_construct_joins_segments (S : List (List Char)) (_hS : ∀ s ∈ S, s ≠ [])
    (pre post : List RefSegment) (r : Ref) :
    (Ref.construct (S.map RefSegment.str)).value = joinSep "/".toList S ∧
    (Ref.construct (pre ++ RefSegment.ref r :: post)).value =
      (Ref.construct (pre ++ RefSegment.str r.value :: post)).value := by
  constructor
  · show joinSep "/".toList ((S.map RefSegment.str).map segString) = joinSep "/".toList S
    have hmap : ∀ T : List (List Char), (T.map RefSegment.str).map segString = T := by
      intro T
      induction T with
      | nil => rfl
      | cons a as ih => simp only [List.map_cons, segString, ih]
    rw [hmap S]
  · show joinSep "/".toList ((pre ++ RefSegment.ref r :: post).map segString) =
      joinSep "/".toList ((pre ++ RefSegment.str r.value :: post).map segString)
    simp [List.map_append, segString, Ref.toString]

/-- C7 witness: the spec's scenario `Reference('databases', 'prydain')`,
plus a nested ref contributing its own string form. -/
theorem c7_construct_joins_segments_witness :
    (∀ s ∈ ["databases".toList, "prydain".toList], s ≠ []) ∧
    ((Ref.construct [RefSegment.str "databases".toList,
        RefSegment.str "prydain".toList]).value =
        joinSep "/".toList ["databases".toList, "prydain".toList] ∧
      (Ref.construct ([] ++ RefSegment.ref ⟨"databases".toList⟩ ::
          [RefSegment.str "prydain".toList])).value =
        (Ref.construct ([] ++ RefSegment.str "databases".toList ::
          [RefSegment.str "prydain".toList])).value) :=
  ⟨by decide, c7_construct_joins_segments ["databases".toList, "prydain".toList]
    (by decide) [] [RefSegment.str "prydain".toList] ⟨"databases".toList⟩⟩

/-- C8: a `FaunaDate` built from a native `Date` stores exactly the first
10 characters of that date's UTC ISO-8601 string — for the spec's example
`2023-06-15T23:59:59Z` (time value 1686873599000) that is `2023-06-15` —
while a string input is stored verbatim (the constructor is total: no
validation, no failure). -/
theorem c8_date_construct_truncates (d : JSDate) (s : List Char) :
    (FaunaDate.construct (.date d)).value = d.toISOString.take 10 ∧
    (FaunaDate.construct (.str s)).value = s ∧
    (FaunaDate.construct (.date ⟨1686873599000⟩)).value = "2023-06-15".toList :=
  ⟨rfl, rfl, by decide⟩

/-- C9: each wire encoding is the single-key tagged object pairing the
type's tag with its stored payload. -/
theorem c9_toJSON_tagged {Q : Type} (r : Ref) (sr : SetRef Q) (t : FaunaTime)
    (fd : FaunaDate) :
    r.toJSON = [("@ref".toList, r.value)] ∧
    sr.toJSON = [("@set".toList, sr.query)] ∧
    t.toJSON = [("@ts".toList, t.value)] ∧
    fd.toJSON = [("@date".toList, fd.value)] :=
  ⟨rfl, rfl, rfl, rfl⟩

/-- C10: segment boundaries are not preserved by decomposition — the ref
built from the two segments `'a'` and `'b/c'` has value `'a/b/c'`, id
`'c'` (not `'b/c'`) and class value `'a/b'`. -/
theorem c10_resplit_boundaries :
    (Ref.construct [RefSegment.str "a".toList, RefSegment.str "b/c".toList]).value =
      "a/b/c".toList ∧
    (Ref.construct [RefSegment.str "a".toList, RefSegment.str "b/c".toList]).id =
      Except.ok "c".toList ∧
    (Ref.construct [RefSegment.str "a".toList, RefSegment.str "b/c".toList]).cls.value =
      "a/b".toList ∧
    (Ref.construct [RefSegment.str "a".toList, RefSegment.str "b/c".toList]).id ≠
      Except.ok "b/c".toList := by
  decide
